import Mathlib

/-!
Verification of the offset-dumping core of DeadLock-Dumper
(`src/analysis/offsets.rs`).

The program registers, per target module, a static table of named byte
signatures.  For each module it scans the module's raw image once per
signature, records the first captured RVA of every signature that matches,
and aggregates the per-module maps into one module-name-keyed table.

The pattern language and the scanner live in the external `pelite` crate
(not part of this repository's sources); they are modelled here from the
specification's data model (spec sections 3 and 4.2).  The registry,
builder loop, and aggregator are translated directly from
`src/analysis/offsets.rs`.
-/

set_option autoImplicit false

namespace DeadLockDumper

/-- A byte of the image; the image buffer is a plain list of bytes. -/
abbrev Byte := Nat

/-- Modelled from the spec: the compiled unit of a pattern (spec section 3,
"Match Atom").  The source compiles textual signatures with the external
`pelite::pattern` compiler, which is not under this repository's sources.
`exact` matches one specific byte; `wildcard` matches any byte; `masked`
matches any byte agreeing with `value` on the bits of `mask`;
`captureRip` is a 4-byte little-endian signed displacement whose capture is
the position just after the field plus the displacement (RIP-relative);
`captureRaw` is a 4-byte little-endian field captured as its raw value;
`skip n` advances `n` bytes without constraint. -/
inductive Atom where
  | exact (b : Byte)
  | wildcard
  | masked (value mask : Byte)
  | captureRip
  | captureRaw
  | skip (n : Nat)
deriving DecidableEq, Repr

/-- `true` exactly on the two capture-marking atoms. -/
def isCaptureAtom : Atom → Bool
  | .captureRip => true
  | .captureRaw => true
  | _ => false

/-- Modelled from the spec: a pattern's capture count is the number of
capture-marking atoms it contains (spec section 4.1). -/
def captureCount (pat : List Atom) : Nat := (pat.filter isCaptureAtom).length

/-- Modelled from the spec: the length of the save array a scan fills.
Slot 0 receives the byte offset where the pattern began matching and the
captures fill the following slots, so the length is one more than the
capture count.  The source calls `pelite::pattern::save_len` to size the
vector `vec![0; save_len(pat)]`. -/
def save_len (pat : List Atom) : Nat := 1 + captureCount pat

/-- The number of image bytes one atom consumes. -/
def atomLen : Atom → Nat
  | .exact _ => 1
  | .wildcard => 1
  | .masked _ _ => 1
  | .captureRip => 4
  | .captureRaw => 4
  | .skip n => n

/-- The number of image bytes a whole pattern consumes. -/
def patLen (pat : List Atom) : Nat := (pat.map atomLen).sum

/-- Read a 4-byte little-endian unsigned value at `pos`, `none` when any of
the four bytes is out of bounds. -/
def readLE32 (img : List Byte) (pos : Nat) : Option Nat :=
  match img[pos]?, img[pos + 1]?, img[pos + 2]?, img[pos + 3]? with
  | some b0, some b1, some b2, some b3 =>
      some (b0 + 256 * b1 + 65536 * b2 + 16777216 * b3)
  | _, _, _, _ => none

/-- Modelled from the spec: test every atom of the pattern in sequence
against the image starting at `pos` (spec section 4.2).  On success the
result is the ordered list of captured values.  A RIP-relative capture is
the position after the 4-byte field plus the (signed, hence modulo 2 ^ 32)
displacement; a raw-literal capture is the raw field value. -/
def matchAtoms (img : List Byte) : List Atom → Nat → Option (List Nat)
  | [], _ => some []
  | .exact b :: rest, pos =>
      match img[pos]? with
      | some x => if x = b then matchAtoms img rest (pos + 1) else none
      | none => none
  | .wildcard :: rest, pos =>
      match img[pos]? with
      | some _ => matchAtoms img rest (pos + 1)
      | none => none
  | .masked v m :: rest, pos =>
      match img[pos]? with
      | some x =>
          if x &&& m = v &&& m then matchAtoms img rest (pos + 1) else none
      | none => none
  | .captureRip :: rest, pos =>
      match readLE32 img pos with
      | some raw =>
          match matchAtoms img rest (pos + 4) with
          | some cs => some (((pos + 4 + raw) % 2 ^ 32) :: cs)
          | none => none
      | none => none
  | .captureRaw :: rest, pos =>
      match readLE32 img pos with
      | some raw =>
          match matchAtoms img rest (pos + 4) with
          | some cs => some (raw :: cs)
          | none => none
      | none => none
  | .skip n :: rest, pos => matchAtoms img rest (pos + n)

/-- Modelled from the spec: slide a window across the image, first fully
matching window wins (spec section 4.2).  `fuel` bounds the number of
start offsets still to try; a window that does not fit the remaining
image ends the scan. -/
def scanFuel (pat : List Atom) (img : List Byte) : Nat → Nat → Option (Nat × List Nat)
  | 0, _ => none
  | fuel + 1, pos =>
      if pos + patLen pat ≤ img.length then
        match matchAtoms img pat pos with
        | some cs => some (pos, cs)
        | none => scanFuel pat img fuel (pos + 1)
      else none

/-- Modelled from the spec: the scanner's entry point — first match of the
pattern over the whole image, with the start offsets ranging over the
image's byte length (spec section 4.2). -/
def findMatch (pat : List Atom) (img : List Byte) : Option (Nat × List Nat) :=
  scanFuel pat img (img.length + 1) 0

/-- Modelled from the spec: the scan call the builder makes
(`view.scanner().finds_code(pat, &mut save)` in the source).  On success
the save array holds the match's start offset in slot 0 followed by the
captured values. -/
def finds_code (pat : List Atom) (img : List Byte) : Option (List Nat) :=
  match findMatch pat img with
  | some (pos, cs) => some (pos :: cs)
  | none => none

/-- `IsFirstMatch pat img pos cs` says the window at `pos` fits the image,
matches with captures `cs`, and no earlier window matches. -/
def IsFirstMatch (pat : List Atom) (img : List Byte) (pos : Nat) (cs : List Nat) : Prop :=
  pos + patLen pat ≤ img.length ∧ matchAtoms img pat pos = some cs ∧
    ∀ q, q < pos → matchAtoms img pat q = none

/-- One registry entry: a name, a compiled pattern, and an optional
derivation callback `fn(&PeView, &mut BTreeMap<String, Rva>, Rva)`
(from `src/analysis/offsets.rs`, the `pattern_map!` value type). -/
structure RegEntry where
  name : String
  pat : List Atom
  callback : Option (List Byte → List (String × Nat) → Nat → List (String × Nat))

/-- The names of a registry fragment, in order. -/
def namesOf (entries : List RegEntry) : List String := entries.map (·.name)

/-- `true` when every entry's derivation callback is `None`. -/
def allNone (entries : List RegEntry) : Bool :=
  entries.all fun e => e.callback.isNone

/-- Codepoint-wise lexicographic order on character lists, the order
`BTreeMap<String, _>` keeps its keys in (byte-wise for the ASCII names
used here). -/
def charsLt : List Char → List Char → Bool
  | [], [] => false
  | [], _ :: _ => true
  | _ :: _, [] => false
  | a :: as, b :: bs =>
      Nat.blt a.toNat b.toNat || (a.toNat == b.toNat && charsLt as bs)

/-- The key order of the map embedding. -/
def strLt (a b : String) : Bool := charsLt a.data b.data

/-- Sorted-insert into a key-ordered association list, replacing an existing
binding of the key: the embedding of `BTreeMap::insert`. -/
def insertBT {α : Type} : List (String × α) → String → α → List (String × α)
  | [], k, v => [(k, v)]
  | (k2, v2) :: rest, k, v =>
      if k = k2 then (k, v) :: rest
      else if strLt k k2 then (k, v) :: (k2, v2) :: rest
      else (k2, v2) :: insertBT rest k v

/-- Lookup in an association list: the embedding of `BTreeMap::get`. -/
def lookupBT {α : Type} : List (String × α) → String → Option α
  | [], _ => none
  | (k2, v2) :: rest, k => if k = k2 then some v2 else lookupBT rest k

/-- The keys of an association list, in order. -/
def keysBT {α : Type} (m : List (String × α)) : List String := m.map (·.1)

/-- One iteration of the builder loop of the generated `offsets` function
(`src/analysis/offsets.rs` lines 38-54): size and fill the save array by
scanning; on a miss leave the map unchanged (staleness is only logged); on
a hit insert the save slot at index 1 under the entry's name and run the
derivation callback, if any, on the image, the map built so far, and the
matched RVA. -/
def buildStep (img : List Byte) (m : List (String × Nat)) (e : RegEntry) :
    List (String × Nat) :=
  match finds_code e.pat img with
  | none => m
  | some save =>
      let rva := save.getD 1 0
      let m2 := insertBT m e.name rva
      match e.callback with
      | some cb => cb img m2 rva
      | none => m2

/-- The per-module builder: fold the registry, in registration order, over
the empty map (`src/analysis/offsets.rs` lines 35-54).  The registry's
iteration order is modelled from the spec as registration order (spec
section 4.3): the source iterates a `phf::Map`, whose order is fixed by
the external `phf` crate. -/
def buildMap (entries : List RegEntry) (img : List Byte) : List (String × Nat) :=
  entries.foldl (buildStep img) []

/-- The staleness diagnostics the builder emits, in order: one
`outdated pattern` line per registry entry whose scan found nothing
(`src/analysis/offsets.rs` lines 41-45).  Diagnostics never feed back into
the map, so they are collected by a separate pass over the same registry. -/
def staleDiags (entries : List RegEntry) (img : List Byte) : List String :=
  (entries.filter fun e => (finds_code e.pat img).isNone).map (·.name)

namespace client

/-- The `client.dll` registry from `pattern_map!`
(`src/analysis/offsets.rs` lines 75-98), pattern text compiled to atoms. -/
def PATTERNS : List RegEntry := [
  ⟨"dwEntityList",
    [.exact 0x48, .exact 0x89, .exact 0x35, .captureRip,
     .exact 0x48, .exact 0x85, .exact 0xF6], none⟩,
  ⟨"dwGameEntitySystem",
    [.exact 0x48, .exact 0x8B, .exact 0x35, .captureRip,
     .exact 0x4C, .exact 0x89, .exact 0xB4, .exact 0x24,
     .wildcard, .wildcard, .wildcard, .wildcard,
     .exact 0x4C, .exact 0x89, .exact 0xBC, .exact 0x24], none⟩,
  ⟨"dwLocalPlayerController",
    [.exact 0x48, .exact 0x3B, .exact 0x35, .captureRip], none⟩,
  ⟨"dwViewMatrix",
    [.exact 0x49, .exact 0x8D, .exact 0x87, .captureRaw,
     .exact 0x4D, .exact 0x69, .exact 0xF4], none⟩,
  ⟨"dwCCitadelCameraManager",
    [.exact 0x48, .exact 0x8D, .exact 0x3D, .captureRip,
     .exact 0x8B, .exact 0xD9], none⟩,
  ⟨"dwGameTraceManager",
    [.exact 0x48, .exact 0x8B, .exact 0x0D, .captureRip,
     .exact 0x4C, .exact 0x8D, .exact 0x44, .exact 0x24, .wildcard,
     .exact 0xE8, .wildcard, .wildcard, .wildcard, .wildcard,
     .exact 0xE8], none⟩,
  ⟨"fnGetCmd",
    [.exact 0xE8, .captureRip,
     .exact 0x48, .exact 0x85, .exact 0xC0,
     .exact 0x74, .wildcard,
     .exact 0x48, .exact 0x8B, .exact 0x40, .wildcard,
     .exact 0x48, .exact 0x8D, .exact 0x0D], none⟩,
  ⟨"fnDecodeNetworkEntities",
    [.exact 0xE8, .captureRip,
     .exact 0x48, .exact 0x8B, .exact 0x53, .wildcard,
     .exact 0x48, .exact 0x3B, .exact 0xD5], none⟩,
  ⟨"dwSchemas",
    [.exact 0x4C, .exact 0x8D, .exact 0x35, .captureRip,
     .exact 0x0F, .exact 0x28, .exact 0x45], none⟩,
  ⟨"dwMaterialSystem",
    [.exact 0x48, .exact 0x8D, .exact 0x05, .captureRip,
     .exact 0xC3,
     .exact 0xCC, .exact 0xCC, .exact 0xCC, .exact 0xCC,
     .exact 0xCC, .exact 0xCC, .exact 0xCC, .exact 0xCC,
     .exact 0x48, .exact 0x8D, .exact 0x05,
     .wildcard, .wildcard, .wildcard, .wildcard], none⟩]

/-- The generated `client::offsets` (`src/analysis/offsets.rs` lines 35-67). -/
def offsets (img : List Byte) : List (String × Nat) := buildMap PATTERNS img

end client

namespace engine2

/-- The `engine2.dll` registry from `pattern_map!`
(`src/analysis/offsets.rs` lines 99-111), pattern text compiled to atoms. -/
def PATTERNS : List RegEntry := [
  ⟨"dwBuildNumber",
    [.exact 0x89, .exact 0x05, .captureRip,
     .exact 0x48, .exact 0x8D, .exact 0x0D, .captureRip,
     .exact 0xFF, .exact 0x15, .captureRip,
     .exact 0x48, .exact 0x8B, .exact 0x0D], none⟩,
  ⟨"dwNetworkGameClient",
    [.exact 0x48, .exact 0x89, .exact 0x3D, .captureRip,
     .exact 0xFF, .exact 0x87], none⟩,
  ⟨"dwNetworkGameClient_clientTickCount",
    [.exact 0x8B, .exact 0x81, .captureRaw,
     .exact 0xC3,
     .exact 0xCC, .exact 0xCC, .exact 0xCC, .exact 0xCC, .exact 0xCC,
     .exact 0xCC, .exact 0xCC, .exact 0xCC, .exact 0xCC,
     .exact 0x8B, .exact 0x81, .captureRip,
     .exact 0xC3,
     .exact 0xCC, .exact 0xCC, .exact 0xCC, .exact 0xCC, .exact 0xCC,
     .exact 0xCC, .exact 0xCC, .exact 0xCC, .exact 0xCC,
     .exact 0x83, .exact 0xB9], none⟩,
  ⟨"dwNetworkGameClient_deltaTick",
    [.exact 0x4C, .exact 0x8D, .exact 0xB7, .captureRaw,
     .exact 0x4C, .exact 0x89, .exact 0x7C, .exact 0x24], none⟩,
  ⟨"dwNetworkGameClient_isBackgroundMap",
    [.exact 0x0F, .exact 0xB6, .exact 0x81, .captureRaw,
     .exact 0xC3,
     .exact 0xCC, .exact 0xCC, .exact 0xCC, .exact 0xCC,
     .exact 0xCC, .exact 0xCC, .exact 0xCC, .exact 0xCC,
     .exact 0x0F, .exact 0xB6, .exact 0x81, .captureRip,
     .exact 0xC3,
     .exact 0xCC, .exact 0xCC, .exact 0xCC, .exact 0xCC,
     .exact 0xCC, .exact 0xCC, .exact 0xCC, .exact 0xCC,
     .exact 0x40, .exact 0x53], none⟩,
  ⟨"dwNetworkGameClient_localPlayer",
    [.exact 0x42, .exact 0x8B, .exact 0x94, .exact 0xD3, .captureRaw,
     .exact 0x5B,
     .exact 0x49, .exact 0xFF, .exact 0xE3,
     .exact 0x32, .exact 0xC0,
     .exact 0x5B,
     .exact 0xC3,
     .exact 0xCC, .exact 0xCC, .exact 0xCC, .exact 0xCC,
     .exact 0xCC, .exact 0xCC, .exact 0xCC, .exact 0xCC,
     .exact 0x40, .exact 0x53], none⟩,
  ⟨"dwNetworkGameClient_maxClients",
    [.exact 0x8B, .exact 0x81, .captureRaw,
     .exact 0xC3,
     .wildcard, .wildcard, .wildcard, .wildcard, .wildcard,
     .wildcard, .wildcard, .wildcard, .wildcard,
     .exact 0x8B, .exact 0x81, .skip 4,
     .exact 0xC3,
     .wildcard, .wildcard, .wildcard, .wildcard, .wildcard,
     .wildcard, .wildcard, .wildcard, .wildcard,
     .exact 0x8B, .exact 0x81], none⟩,
  ⟨"dwNetworkGameClient_serverTickCount",
    [.exact 0x8B, .exact 0x81, .captureRaw,
     .exact 0xC3,
     .exact 0xCC, .exact 0xCC, .exact 0xCC, .exact 0xCC, .exact 0xCC,
     .exact 0xCC, .exact 0xCC, .exact 0xCC, .exact 0xCC,
     .exact 0x83, .exact 0xB9], none⟩,
  ⟨"dwNetworkGameClient_signOnState",
    [.exact 0x44, .exact 0x8B, .exact 0x81, .captureRaw,
     .exact 0x48, .exact 0x8D, .exact 0x0D], none⟩,
  ⟨"dwWindowHeight",
    [.exact 0x8B, .exact 0x05, .captureRip,
     .exact 0x89, .exact 0x03], none⟩,
  ⟨"dwWindowWidth",
    [.exact 0x8B, .exact 0x05, .captureRip,
     .exact 0x89, .exact 0x07], none⟩]

/-- The generated `engine2::offsets` (`src/analysis/offsets.rs` lines 35-67). -/
def offsets (img : List Byte) : List (String × Nat) := buildMap PATTERNS img

end engine2

namespace input_system

/-- The `inputsystem.dll` registry from `pattern_map!`
(`src/analysis/offsets.rs` lines 112-114), pattern text compiled to atoms. -/
def PATTERNS : List RegEntry := [
  ⟨"dwInputSystem",
    [.exact 0x48, .exact 0x8D, .exact 0x05, .captureRip,
     .exact 0xC3,
     .exact 0xCC, .exact 0xCC, .exact 0xCC, .exact 0xCC,
     .exact 0xCC, .exact 0xCC, .exact 0xCC, .exact 0xCC,
     .exact 0x40, .exact 0x53], none⟩]

/-- The generated `input_system::offsets`
(`src/analysis/offsets.rs` lines 35-67). -/
def offsets (img : List Byte) : List (String × Nat) := buildMap PATTERNS img

end input_system

/-- The ways obtaining a module's image can fail: module lookup
(`module_by_name`), reading the module's bytes (`read_raw` and
`data_part`), or parsing them as an image (`PeView::from_bytes`)
(`src/analysis/offsets.rs` lines 127-133). -/
inductive ProviderError where
  | moduleNotFound (name : String)
  | readFailure (name : String)
  | parseFailure (name : String)
deriving DecidableEq, Repr

/-- The configured target modules with their generated builders
(`src/analysis/offsets.rs` lines 120-124). -/
def targetModules : List (String × (List Byte → List (String × Nat))) :=
  [("client.dll", client.offsets),
   ("engine2.dll", engine2.offsets),
   ("inputsystem.dll", input_system.offsets)]

/-- The names of the configured target modules. -/
def targetModuleNames : List String := targetModules.map (·.1)

/-- The top-level loop of `offsets` (`src/analysis/offsets.rs` lines
126-136): for each configured module obtain its image from the provider —
any provider failure propagates immediately by `?` — and insert the
module's built offset map into the accumulating table. -/
def aggregateFrom (provider : String → Except ProviderError (List Byte)) :
    List (String × (List Byte → List (String × Nat))) →
    List (String × List (String × Nat)) →
    Except ProviderError (List (String × List (String × Nat)))
  | [], acc => Except.ok acc
  | (name, f) :: rest, acc =>
      match provider name with
      | Except.error e => Except.error e
      | Except.ok buf => aggregateFrom provider rest (insertBT acc name (f buf))

/-- The top-level `offsets` function (`src/analysis/offsets.rs` lines
117-139), parameterised over the image provider that stands for the
`memflow` process handle. -/
def offsets (provider : String → Except ProviderError (List Byte)) :
    Except ProviderError (List (String × List (String × Nat))) :=
  aggregateFrom provider targetModules []

/-! ### Concrete fixtures used to instantiate the theorems -/

/-- The registered `dwEntityList` entry of `client.dll`, as a standalone
value (definitionally the head of `client.PATTERNS`). -/
def entryEntityList : RegEntry :=
  ⟨"dwEntityList",
    [.exact 0x48, .exact 0x89, .exact 0x35, .captureRip,
     .exact 0x48, .exact 0x85, .exact 0xF6], none⟩

/-- The registered `dwLocalPlayerController` entry of `client.dll`, as a
standalone value (definitionally the third element of `client.PATTERNS`). -/
def entryLocalPlayerController : RegEntry :=
  ⟨"dwLocalPlayerController", [.exact 0x48, .exact 0x3B, .exact 0x35, .captureRip], none⟩

/-- A 7-byte image on which exactly the `dwLocalPlayerController` signature
of `client.dll` matches, at offset 0 with captured RVA 7. -/
def imgLPC : List Byte := [0x48, 0x3B, 0x35, 0, 0, 0, 0]

/-- A 10-byte image on which the `dwEntityList` signature matches at
offset 0 with captured RVA 7. -/
def imgEL : List Byte := [0x48, 0x89, 0x35, 0, 0, 0, 0, 0x48, 0x85, 0xF6]

/-- An image provider that produces an empty buffer for every module. -/
def providerAllEmpty : String → Except ProviderError (List Byte) :=
  fun _ => Except.ok []

/-- An image provider that fails on `engine2.dll` and produces an empty
buffer for every other module. -/
def providerEngineFails : String → Except ProviderError (List Byte) :=
  fun n =>
    if n = "engine2.dll" then Except.error (ProviderError.readFailure n)
    else Except.ok []

/-- Decidable equality for `Except`, so that aggregator results can be
checked on concrete providers. -/
instance {ε α : Type} [DecidableEq ε] [DecidableEq α] : DecidableEq (Except ε α) := fun x y =>
  match x, y with
  | .ok a, .ok b =>
      if h : a = b then isTrue (by rw [h]) else isFalse (fun hc => h (Except.ok.inj hc))
  | .ok _, .error _ => isFalse (fun hc => Except.noConfusion hc)
  | .error _, .ok _ => isFalse (fun hc => Except.noConfusion hc)
  | .error e, .error f =>
      if h : e = f then isTrue (by rw [h]) else isFalse (fun hc => h (Except.error.inj hc))

/-! ## Helper lemmas -/

theorem matchAtoms_length {img : List Byte} :
    ∀ {pat : List Atom} {pos : Nat} {cs : List Nat},
      matchAtoms img pat pos = some cs → cs.length = captureCount pat := by
  intro pat
  induction pat with
  | nil =>
      intro pos cs h
      simp [matchAtoms] at h
      simp [← h, captureCount]
  | cons a rest ih =>
      intro pos cs h
      cases a with
      | exact b =>
          simp only [matchAtoms] at h
          cases hx : img[pos]? with
          | none => simp [hx] at h
          | some x =>
              simp only [hx] at h
              by_cases hxb : x = b
              · simp [hxb] at h
                simpa [captureCount, isCaptureAtom] using ih h
              · simp [hxb] at h
      | wildcard =>
          simp only [matchAtoms] at h
          cases hx : img[pos]? with
          | none => simp [hx] at h
          | some x =>
              simp only [hx] at h
              simpa [captureCount, isCaptureAtom] using ih h
      | masked v m =>
          simp only [matchAtoms] at h
          cases hx : img[pos]? with
          | none => simp [hx] at h
          | some x =>
              simp only [hx] at h
              by_cases hxb : x &&& m = v &&& m
              · simp [hxb] at h
                simpa [captureCount, isCaptureAtom] using ih h
              · simp [hxb] at h
      | captureRip =>
          simp only [matchAtoms] at h
          cases hr : readLE32 img pos with
          | none => simp [hr] at h
          | some raw =>
              simp only [hr] at h
              cases hm : matchAtoms img rest (pos + 4) with
              | none => simp [hm] at h
              | some cs2 =>
                  simp [hm] at h
                  simp [← h, captureCount, isCaptureAtom,
                    List.filter_cons]
                  have := ih hm
                  simpa [captureCount] using this
      | captureRaw =>
          simp only [matchAtoms] at h
          cases hr : readLE32 img pos with
          | none => simp [hr] at h
          | some raw =>
              simp only [hr] at h
              cases hm : matchAtoms img rest (pos + 4) with
              | none => simp [hm] at h
              | some cs2 =>
                  simp [hm] at h
                  simp [← h, captureCount, isCaptureAtom,
                    List.filter_cons]
                  have := ih hm
                  simpa [captureCount] using this
      | skip n =>
          simp only [matchAtoms] at h
          simpa [captureCount, isCaptureAtom] using ih h

theorem lookupBT_insertBT_self {α : Type} (m : List (String × α)) (k : String) (v : α) :
    lookupBT (insertBT m k v) k = some v := by
  induction m with
  | nil => simp [insertBT, lookupBT]
  | cons p rest ih =>
      obtain ⟨k2, v2⟩ := p
      by_cases h : k = k2
      · simp [insertBT, h, lookupBT]
      · by_cases h2 : strLt k k2
        · simp [insertBT, h, h2, lookupBT]
        · simp [insertBT, h, h2, lookupBT, ih]

theorem lookupBT_insertBT_ne {α : Type} (m : List (String × α)) (k k2 : String) (v : α)
    (hne : k2 ≠ k) : lookupBT (insertBT m k v) k2 = lookupBT m k2 := by
  induction m with
  | nil => simp [insertBT, lookupBT, hne]
  | cons p rest ih =>
      obtain ⟨k3, v3⟩ := p
      by_cases h : k = k3
      · subst h
        simp [insertBT, lookupBT, hne]
      · by_cases h2 : strLt k k3
        · simp [insertBT, h, h2, lookupBT, hne]
        · by_cases h3 : k2 = k3
          · simp [insertBT, h, h2, lookupBT, h3]
          · simp [insertBT, h, h2, lookupBT, h3, ih]

theorem mem_keysBT_insertBT {α : Type} (m : List (String × α)) (k k2 : String) (v : α)
    (h : k2 ∈ keysBT (insertBT m k v)) : k2 = k ∨ k2 ∈ keysBT m := by
  induction m with
  | nil =>
      simp [insertBT, keysBT] at h
      exact Or.inl h
  | cons p rest ih =>
      obtain ⟨k3, v3⟩ := p
      by_cases hk : k = k3
      · subst hk
        simp [insertBT, keysBT] at h ⊢
        tauto
      · by_cases h2 : strLt k k3
        · simp [insertBT, hk, h2, keysBT] at h ⊢
          tauto
        · simp [insertBT, hk, h2, keysBT] at h ⊢
          rcases h with h | h
          · tauto
          · rcases ih (by simpa [keysBT] using h) with h3 | h3
            · tauto
            · simp [keysBT] at h3
              tauto

theorem length_insertBT_le {α : Type} (m : List (String × α)) (k : String) (v : α) :
    (insertBT m k v).length ≤ m.length + 1 := by
  induction m with
  | nil => simp [insertBT]
  | cons p rest ih =>
      obtain ⟨k2, v2⟩ := p
      by_cases h : k = k2
      · simp [insertBT, h]
      · by_cases h2 : strLt k k2
        · simp [insertBT, h, h2]
        · simp [insertBT, h, h2]
          omega

theorem lookupBT_some_mem_keys {α : Type} (m : List (String × α)) (k : String) (v : α)
    (h : lookupBT m k = some v) : k ∈ keysBT m := by
  induction m with
  | nil => simp [lookupBT] at h
  | cons p rest ih =>
      obtain ⟨k2, v2⟩ := p
      by_cases hk : k = k2
      · simp [keysBT, hk]
      · simp only [lookupBT, hk, if_false] at h
        simp [keysBT] at ih ⊢
        exact Or.inr (ih h)

theorem lookupBT_isSome_insertBT {α : Type} (m : List (String × α)) (k k2 : String) (v : α)
    (h : k2 = k ∨ (lookupBT m k2).isSome) : (lookupBT (insertBT m k v) k2).isSome := by
  rcases h with h | h
  · subst h
    simp [lookupBT_insertBT_self]
  · by_cases hk : k2 = k
    · subst hk
      simp [lookupBT_insertBT_self]
    · rw [lookupBT_insertBT_ne m k k2 v hk]
      exact h

theorem allNone_iff (entries : List RegEntry) :
    allNone entries = true ↔ ∀ e ∈ entries, e.callback = none := by
  simp [allNone, List.all_eq_true, Option.isNone_iff_eq_none]

theorem buildStep_of_fail (img : List Byte) (m : List (String × Nat)) (e : RegEntry)
    (h : finds_code e.pat img = none) : buildStep img m e = m := by
  simp [buildStep, h]

theorem buildStep_of_hit (img : List Byte) (m : List (String × Nat)) (e : RegEntry)
    (save : List Nat) (h : finds_code e.pat img = some save) (hcb : e.callback = none) :
    buildStep img m e = insertBT m e.name (save.getD 1 0) := by
  simp [buildStep, h, hcb]

theorem fold_lookup_of_not_mem (img : List Byte) :
    ∀ (l : List RegEntry) (m : List (String × Nat)) (k : String),
      (∀ e ∈ l, e.callback = none) → k ∉ namesOf l →
      lookupBT (l.foldl (buildStep img) m) k = lookupBT m k := by
  intro l
  induction l with
  | nil => intro m k _ _; simp
  | cons e rest ih =>
      intro m k hcb hk
      simp [namesOf] at hk
      have hcb1 : e.callback = none := hcb e (by simp)
      have hcbr : ∀ e2 ∈ rest, e2.callback = none := fun e2 h2 => hcb e2 (by simp [h2])
      have hkr : k ∉ namesOf rest := by simp [namesOf]; exact hk.2
      rw [List.foldl_cons, ih (buildStep img m e) k hcbr hkr]
      cases hf : finds_code e.pat img with
      | none => rw [buildStep_of_fail img m e hf]
      | some save =>
          rw [buildStep_of_hit img m e save hf hcb1]
          exact lookupBT_insertBT_ne m e.name k _ hk.1

theorem fold_keys_subset (img : List Byte) :
    ∀ (l : List RegEntry) (m : List (String × Nat)) (k : String),
      (∀ e ∈ l, e.callback = none) →
      k ∈ keysBT (l.foldl (buildStep img) m) → k ∈ keysBT m ∨ k ∈ namesOf l := by
  intro l
  induction l with
  | nil => intro m k _ h; simpa using Or.inl h
  | cons e rest ih =>
      intro m k hcb h
      have hcb1 : e.callback = none := hcb e (by simp)
      have hcbr : ∀ e2 ∈ rest, e2.callback = none := fun e2 h2 => hcb e2 (by simp [h2])
      rw [List.foldl_cons] at h
      rcases ih (buildStep img m e) k hcbr h with h2 | h2
      · cases hf : finds_code e.pat img with
        | none =>
            rw [buildStep_of_fail img m e hf] at h2
            exact Or.inl h2
        | some save =>
            rw [buildStep_of_hit img m e save hf hcb1] at h2
            rcases mem_keysBT_insertBT m e.name k _ h2 with h3 | h3
            · right; simp [namesOf, h3]
            · exact Or.inl h3
      · right; simp [namesOf] at h2 ⊢; tauto

theorem fold_length_le (img : List Byte) :
    ∀ (l : List RegEntry) (m : List (String × Nat)),
      (∀ e ∈ l, e.callback = none) →
      (l.foldl (buildStep img) m).length ≤ m.length + l.length := by
  intro l
  induction l with
  | nil => intro m _; simp
  | cons e rest ih =>
      intro m hcb
      have hcb1 : e.callback = none := hcb e (by simp)
      have hcbr : ∀ e2 ∈ rest, e2.callback = none := fun e2 h2 => hcb e2 (by simp [h2])
      rw [List.foldl_cons]
      have h1 : (buildStep img m e).length ≤ m.length + 1 := by
        cases hf : finds_code e.pat img with
        | none => rw [buildStep_of_fail img m e hf]; omega
        | some save =>
            rw [buildStep_of_hit img m e save hf hcb1]
            exact length_insertBT_le m e.name _
      have h2 := ih (buildStep img m e) hcbr
      simp only [List.length_cons]
      omega

theorem fold_lookup_explained (img : List Byte) :
    ∀ (l : List RegEntry) (m : List (String × Nat)) (k : String) (v : Nat),
      (∀ e ∈ l, e.callback = none) →
      lookupBT (l.foldl (buildStep img) m) k = some v →
      lookupBT m k = some v ∨
        ∃ e, e ∈ l ∧ e.name = k ∧
          ∃ save, finds_code e.pat img = some save ∧ v = save.getD 1 0 := by
  intro l
  induction l with
  | nil => intro m k v _ h; left; simpa using h
  | cons e rest ih =>
      intro m k v hcb h
      have hcb1 : e.callback = none := hcb e (by simp)
      have hcbr : ∀ e2 ∈ rest, e2.callback = none := fun e2 h2 => hcb e2 (by simp [h2])
      rw [List.foldl_cons] at h
      rcases ih (buildStep img m e) k v hcbr h with h2 | h2
      · cases hf : finds_code e.pat img with
        | none =>
            rw [buildStep_of_fail img m e hf] at h2
            exact Or.inl h2
        | some save =>
            rw [buildStep_of_hit img m e save hf hcb1] at h2
            by_cases hk : k = e.name
            · subst hk
              rw [lookupBT_insertBT_self] at h2
              right
              exact ⟨e, by simp, rfl, save, hf, by simpa using h2.symm⟩
            · rw [lookupBT_insertBT_ne m e.name k _ hk] at h2
              exact Or.inl h2
      · obtain ⟨e2, he2, rest2⟩ := h2
        exact Or.inr ⟨e2, by simp [he2], rest2⟩

theorem patLen_pos_cases (pat : List Atom) (pos : Nat) (img : List Byte) :
    img.length < pos → img.length < pos + patLen pat := by
  intro h
  have : 0 ≤ patLen pat := Nat.zero_le _
  omega

theorem scanFuel_succ_stable (pat : List Atom) (img : List Byte) :
    ∀ (fuel pos : Nat), img.length + 1 ≤ fuel + pos →
      scanFuel pat img (fuel + 1) pos = scanFuel pat img fuel pos := by
  intro fuel
  induction fuel with
  | zero =>
      intro pos h
      simp only [Nat.zero_add] at h
      have hguard : ¬ (pos + patLen pat ≤ img.length) := by
        have : 0 ≤ patLen pat := Nat.zero_le _
        omega
      simp [scanFuel, hguard]
  | succ f ih =>
      intro pos h
      by_cases hguard : pos + patLen pat ≤ img.length
      · cases hm : matchAtoms img pat pos with
        | some cs => simp [scanFuel, hguard, hm]
        | none =>
            have := ih (pos + 1) (by omega)
            simp only [scanFuel, hguard, if_true, hm]
            exact this
      · simp [scanFuel, hguard]

theorem scanFuel_ge_stable (pat : List Atom) (img : List Byte) :
    ∀ (d fuel pos : Nat), img.length + 1 ≤ fuel + pos →
      scanFuel pat img (fuel + d) pos = scanFuel pat img fuel pos := by
  intro d
  induction d with
  | zero => intro fuel pos _; rfl
  | succ d ih =>
      intro fuel pos h
      have h1 : fuel + (d + 1) = (fuel + d) + 1 := by omega
      rw [h1, scanFuel_succ_stable pat img (fuel + d) pos (by omega), ih fuel pos h]

theorem scanFuel_some_spec (pat : List Atom) (img : List Byte) :
    ∀ (fuel pos p : Nat) (cs : List Nat),
      scanFuel pat img fuel pos = some (p, cs) →
      pos ≤ p ∧ p + patLen pat ≤ img.length ∧ matchAtoms img pat p = some cs ∧
        ∀ q, pos ≤ q → q < p → matchAtoms img pat q = none := by
  intro fuel
  induction fuel with
  | zero => intro pos p cs h; simp [scanFuel] at h
  | succ f ih =>
      intro pos p cs h
      by_cases hguard : pos + patLen pat ≤ img.length
      · cases hm : matchAtoms img pat pos with
        | some cs2 =>
            simp [scanFuel, hguard, hm] at h
            obtain ⟨hp, hcs⟩ := h
            subst hp; subst hcs
            exact ⟨Nat.le_refl _, hguard, hm, fun q h1 h2 => absurd h1 (by omega)⟩
        | none =>
            simp only [scanFuel, hguard, if_true, hm] at h
            obtain ⟨h1, h2, h3, h4⟩ := ih (pos + 1) p cs h
            refine ⟨by omega, h2, h3, fun q hq1 hq2 => ?_⟩
            by_cases hq : q = pos
            · subst hq; exact hm
            · exact h4 q (by omega) hq2
      · simp [scanFuel, hguard] at h

theorem scanFuel_none_spec (pat : List Atom) (img : List Byte) :
    ∀ (fuel pos : Nat),
      scanFuel pat img fuel pos = none →
      ∀ q, pos ≤ q → q < pos + fuel → q + patLen pat ≤ img.length →
        matchAtoms img pat q = none := by
  intro fuel
  induction fuel with
  | zero => intro pos _ q h1 h2 _; omega
  | succ f ih =>
      intro pos h q h1 h2 h3
      by_cases hguard : pos + patLen pat ≤ img.length
      · cases hm : matchAtoms img pat pos with
        | some cs => simp [scanFuel, hguard, hm] at h
        | none =>
            simp only [scanFuel, hguard, if_true, hm] at h
            by_cases hq : q = pos
            · subst hq; exact hm
            · exact ih (pos + 1) h q (by omega) (by omega) h3
      · exfalso
        have : pos ≤ q := h1
        omega

theorem findMatch_some_first (pat : List Atom) (img : List Byte) (p : Nat) (cs : List Nat)
    (h : findMatch pat img = some (p, cs)) : IsFirstMatch pat img p cs := by
  obtain ⟨h1, h2, h3, h4⟩ := scanFuel_some_spec pat img (img.length + 1) 0 p cs h
  exact ⟨h2, h3, fun q hq => h4 q (Nat.zero_le _) hq⟩

theorem findMatch_none_nomatch (pat : List Atom) (img : List Byte)
    (h : findMatch pat img = none) :
    ∀ q, q + patLen pat ≤ img.length → matchAtoms img pat q = none := by
  intro q hq
  exact scanFuel_none_spec pat img (img.length + 1) 0 h q (Nat.zero_le _) (by omega) hq

theorem isFirstMatch_unique (pat : List Atom) (img : List Byte)
    (p1 p2 : Nat) (c1 c2 : List Nat)
    (h1 : IsFirstMatch pat img p1 c1) (h2 : IsFirstMatch pat img p2 c2) :
    p1 = p2 ∧ c1 = c2 := by
  obtain ⟨hf1, hm1, hmin1⟩ := h1
  obtain ⟨hf2, hm2, hmin2⟩ := h2
  have hp : p1 = p2 := by
    by_contra hne
    rcases Nat.lt_or_ge p1 p2 with h | h
    · rw [hmin2 p1 h] at hm1; exact Option.noConfusion hm1
    · have : p2 < p1 := by omega
      rw [hmin1 p2 this] at hm2; exact Option.noConfusion hm2
  subst hp
  rw [hm1] at hm2
  exact ⟨rfl, Option.some.inj hm2⟩

theorem findMatch_of_isFirst (pat : List Atom) (img : List Byte) (p : Nat) (cs : List Nat)
    (h : IsFirstMatch pat img p cs) : findMatch pat img = some (p, cs) := by
  obtain ⟨hf, hm, hmin⟩ := h
  cases hres : findMatch pat img with
  | none =>
      have := findMatch_none_nomatch pat img hres p hf
      rw [this] at hm
      exact Option.noConfusion hm
  | some pc =>
      obtain ⟨p2, c2⟩ := pc
      have h2 := findMatch_some_first pat img p2 c2 hres
      obtain ⟨hp, hc⟩ := isFirstMatch_unique pat img p2 p c2 cs h2 ⟨hf, hm, hmin⟩
      subst hp
      subst hc
      rfl

theorem aggregateFrom_ok_all (provider : String → Except ProviderError (List Byte)) :
    ∀ (l : List (String × (List Byte → List (String × Nat))))
      (acc : List (String × List (String × Nat)))
      (t : List (String × List (String × Nat))),
      aggregateFrom provider l acc = Except.ok t →
      ∀ p ∈ l, ∃ buf, provider p.1 = Except.ok buf := by
  intro l
  induction l with
  | nil => intro acc t _ p hp; simp at hp
  | cons hd rest ih =>
      intro acc t h p hp
      obtain ⟨name, f⟩ := hd
      cases hpr : provider name with
      | error e => simp [aggregateFrom, hpr] at h
      | ok buf =>
          simp only [aggregateFrom, hpr] at h
          rcases List.mem_cons.mp hp with hp1 | hp1
          · subst hp1; exact ⟨buf, hpr⟩
          · exact ih _ t h p hp1

theorem aggregateFrom_all_ok (provider : String → Except ProviderError (List Byte)) :
    ∀ (l : List (String × (List Byte → List (String × Nat))))
      (acc : List (String × List (String × Nat))),
      (∀ p ∈ l, ∃ buf, provider p.1 = Except.ok buf) →
      ∃ t, aggregateFrom provider l acc = Except.ok t := by
  intro l
  induction l with
  | nil => intro acc _; exact ⟨acc, rfl⟩
  | cons hd rest ih =>
      intro acc hall
      obtain ⟨name, f⟩ := hd
      obtain ⟨buf, hbuf⟩ := hall ⟨name, f⟩ (by simp)
      have hrest : ∀ p ∈ rest, ∃ buf2, provider p.1 = Except.ok buf2 :=
        fun p hp => hall p (by simp [hp])
      obtain ⟨t, ht⟩ := ih (insertBT acc name (f buf)) hrest
      exact ⟨t, by simp [aggregateFrom, hbuf, ht]⟩

theorem aggregateFrom_preserve (provider : String → Except ProviderError (List Byte)) :
    ∀ (l : List (String × (List Byte → List (String × Nat))))
      (acc : List (String × List (String × Nat)))
      (t : List (String × List (String × Nat))) (k : String),
      aggregateFrom provider l acc = Except.ok t →
      (lookupBT acc k).isSome → (lookupBT t k).isSome := by
  intro l
  induction l with
  | nil =>
      intro acc t k h hk
      simp only [aggregateFrom] at h
      cases h
      exact hk
  | cons hd rest ih =>
      intro acc t k h hk
      obtain ⟨name, f⟩ := hd
      cases hpr : provider name with
      | error e => simp [aggregateFrom, hpr] at h
      | ok buf =>
          simp only [aggregateFrom, hpr] at h
          exact ih _ t k h (lookupBT_isSome_insertBT acc name k (f buf) (Or.inr hk))

theorem aggregateFrom_mem_lookup (provider : String → Except ProviderError (List Byte)) :
    ∀ (l : List (String × (List Byte → List (String × Nat))))
      (acc : List (String × List (String × Nat)))
      (t : List (String × List (String × Nat))) (p : String × (List Byte → List (String × Nat))),
      aggregateFrom provider l acc = Except.ok t →
      p ∈ l → (lookupBT t p.1).isSome := by
  intro l
  induction l with
  | nil => intro acc t p _ hp; simp at hp
  | cons hd rest ih =>
      intro acc t p h hp
      obtain ⟨name, f⟩ := hd
      cases hpr : provider name with
      | error e => simp [aggregateFrom, hpr] at h
      | ok buf =>
          simp only [aggregateFrom, hpr] at h
          rcases List.mem_cons.mp hp with hp1 | hp1
          · subst hp1
            exact aggregateFrom_preserve provider rest _ t name h
              (lookupBT_isSome_insertBT acc name name (f buf) (Or.inl rfl))
          · exact ih _ t p h hp1

/-! ## Claim theorems -/

/-- Claim C1: with every derivation callback `None` — as in the whole
current registry — every entry of the per-module Offset Map built for an
image comes from a registered pattern of that module that matched the
image, is recorded under that pattern's registered name, and its value is
the save slot at index 1, which is the match's first captured RVA. -/
theorem C1_entry_is_first_capture (entries : List RegEntry) (img : List Byte)
    (k : String) (v : Nat) (hcb : allNone entries = true)
    (hk : lookupBT (buildMap entries img) k = some v) :
    ∃ e, e ∈ entries ∧ e.name = k ∧
      ∃ save, finds_code e.pat img = some save ∧ v = save.getD 1 0 ∧
        ∃ pos cs, findMatch e.pat img = some (pos, cs) ∧ save = pos :: cs ∧
          v = cs.getD 0 0 := by
  have hcb2 := (allNone_iff entries).mp hcb
  rcases fold_lookup_explained img entries [] k v hcb2 hk with h | h
  · simp [lookupBT] at h
  · obtain ⟨e, he, hname, save, hsave, hv⟩ := h
    refine ⟨e, he, hname, save, hsave, hv, ?_⟩
    unfold finds_code at hsave
    cases hfm : findMatch e.pat img with
    | none => rw [hfm] at hsave; exact Option.noConfusion hsave
    | some pc =>
        obtain ⟨pos, cs⟩ := pc
        rw [hfm] at hsave
        have hsv : save = pos :: cs := (Option.some.inj hsave).symm
        exact ⟨pos, cs, rfl, hsv, by rw [hv, hsv]; rfl⟩

/-- Witness for C1 on the `client.dll` registry and a concrete image:
`dwLocalPlayerController` is in the built map with value 7, and the
theorem produces the matched entry behind it. -/
theorem C1_entry_is_first_capture_witness :
    ∃ e, e ∈ client.PATTERNS ∧ e.name = "dwLocalPlayerController" ∧
      ∃ save, finds_code e.pat imgLPC = some save ∧ 7 = save.getD 1 0 ∧
        ∃ pos cs, findMatch e.pat imgLPC = some (pos, cs) ∧ save = pos :: cs ∧
          7 = cs.getD 0 0 :=
  C1_entry_is_first_capture client.PATTERNS imgLPC "dwLocalPlayerController" 7
    (by decide) (by decide)

/-- Claim C2: a registered pattern that fails to match contributes no entry
under its name, is reported through a staleness diagnostic, and is
processing-neutral: the map the builder returns equals the map built from
the registry with that entry removed, so every other pattern is still
attempted with an unchanged outcome and a map is still returned. -/
theorem C2_stale_pattern_isolated (l1 l2 : List RegEntry) (e : RegEntry) (img : List Byte)
    (hfail : finds_code e.pat img = none)
    (hcb : allNone (l1 ++ l2) = true)
    (hname : e.name ∉ namesOf (l1 ++ l2)) :
    lookupBT (buildMap (l1 ++ e :: l2) img) e.name = none ∧
      e.name ∈ staleDiags (l1 ++ e :: l2) img ∧
      buildMap (l1 ++ e :: l2) img = buildMap (l1 ++ l2) img := by
  have hcb2 := (allNone_iff (l1 ++ l2)).mp hcb
  have h3 : buildMap (l1 ++ e :: l2) img = buildMap (l1 ++ l2) img := by
    simp only [buildMap, List.foldl_append, List.foldl_cons]
    rw [buildStep_of_fail img _ e hfail]
  refine ⟨?_, ?_, h3⟩
  · rw [h3]
    unfold buildMap
    rw [fold_lookup_of_not_mem img (l1 ++ l2) [] e.name hcb2 hname]
    rfl
  · unfold staleDiags
    refine List.mem_map.mpr ⟨e, List.mem_filter.mpr ⟨?_, ?_⟩, rfl⟩
    · simp
    · simp [hfail]

/-- Witness for C2: on the empty image the `dwEntityList` signature fails;
with `dwLocalPlayerController` registered before it the built map has no
`dwEntityList` entry, the staleness diagnostic is emitted, and the map
equals the one built without the stale entry. -/
theorem C2_stale_pattern_isolated_witness :
    lookupBT (buildMap ([entryLocalPlayerController] ++ entryEntityList :: []) [])
        entryEntityList.name = none ∧
      entryEntityList.name ∈ staleDiags ([entryLocalPlayerController] ++ entryEntityList :: []) [] ∧
      buildMap ([entryLocalPlayerController] ++ entryEntityList :: []) [] =
        buildMap ([entryLocalPlayerController] ++ []) [] :=
  C2_stale_pattern_isolated [entryLocalPlayerController] [] entryEntityList []
    (by decide) (by decide) (by decide)

/-- Claim C3: the builder processes a module's registry in registration
order — the entries after a split point are folded over the map state
already built from all entries before it — and an earlier entry that
matched is present in that partial map under its name with its save slot 1
value, so a later derivation rule can read it.  The registry's iteration
order itself is modelled from the spec (the source iterates a `phf::Map`
owned by the external `phf` crate). -/
theorem C3_registration_order (l1 l2 : List RegEntry) (e : RegEntry) (img : List Byte)
    (he : e ∈ l1) (hcb : allNone l1 = true) (hnd : (namesOf l1).Nodup)
    (save : List Nat) (hs : finds_code e.pat img = some save) :
    buildMap (l1 ++ l2) img = List.foldl (buildStep img) (buildMap l1 img) l2 ∧
      lookupBT (buildMap l1 img) e.name = some (save.getD 1 0) := by
  constructor
  · simp [buildMap, List.foldl_append]
  · have hcb2 := (allNone_iff l1).mp hcb
    obtain ⟨a, b, hab⟩ := List.append_of_mem he
    subst hab
    have hnames : namesOf (a ++ e :: b) = namesOf a ++ e.name :: namesOf b := by
      simp [namesOf]
    rw [hnames] at hnd
    have hnotb : e.name ∉ namesOf b := by
      have := (List.nodup_append.mp hnd).2.1
      exact (List.nodup_cons.mp this).1
    have hcbb : ∀ e2 ∈ b, e2.callback = none := fun e2 h2 => hcb2 e2 (by simp [h2])
    have hcbe : e.callback = none := hcb2 e (by simp)
    unfold buildMap
    rw [List.foldl_append, List.foldl_cons,
      fold_lookup_of_not_mem img b _ e.name hcbb hnotb,
      buildStep_of_hit img _ e save hs hcbe, lookupBT_insertBT_self]

/-- Witness for C3 on a concrete split: with `dwLocalPlayerController`
among the earlier entries and matched on a concrete image, its result is
in the partial map, and the later entries fold over that state. -/
theorem C3_registration_order_witness :
    buildMap ([entryEntityList, entryLocalPlayerController] ++ [entryEntityList]) imgLPC =
        List.foldl (buildStep imgLPC)
          (buildMap [entryEntityList, entryLocalPlayerController] imgLPC) [entryEntityList] ∧
      lookupBT (buildMap [entryEntityList, entryLocalPlayerController] imgLPC)
        entryLocalPlayerController.name = some (([0, 7] : List Nat).getD 1 0) :=
  C3_registration_order [entryEntityList, entryLocalPlayerController] [entryEntityList]
    entryLocalPlayerController imgLPC
    (List.Mem.tail _ (List.Mem.head _)) (by decide) (by decide) [0, 7] (by decide)

/-- Claim C4: if the image provider fails on any configured module the
top-level aggregation returns an error and never a table, partial or not;
and a successful aggregation implies the provider produced an image for
every configured module. -/
theorem C4_provider_failure_is_fatal (provider : String → Except ProviderError (List Byte)) :
    ((∃ m, m ∈ targetModuleNames ∧ ∃ e, provider m = Except.error e) →
      ∃ e2, offsets provider = Except.error e2 ∧ ∀ t, offsets provider ≠ Except.ok t) ∧
      (∀ t, offsets provider = Except.ok t →
        ∀ m, m ∈ targetModuleNames → ∃ buf, provider m = Except.ok buf) := by
  constructor
  · intro hbad
    obtain ⟨m, hm, e, he⟩ := hbad
    cases hres : offsets provider with
    | error e2 =>
        exact ⟨e2, rfl, fun t ht => Except.noConfusion ht⟩
    | ok t =>
        exfalso
        obtain ⟨p, hp, hpm⟩ := List.mem_map.mp hm
        obtain ⟨buf, hbuf⟩ := aggregateFrom_ok_all provider targetModules [] t hres p hp
        rw [hpm, he] at hbuf
        exact Except.noConfusion hbuf
  · intro t ht m hm
    obtain ⟨p, hp, hpm⟩ := List.mem_map.mp hm
    obtain ⟨buf, hbuf⟩ := aggregateFrom_ok_all provider targetModules [] t ht p hp
    exact ⟨buf, by rw [← hpm]; exact hbuf⟩

/-- Witness for C4 on a provider that fails for `engine2.dll`: the whole
aggregation returns an error and no table. -/
theorem C4_provider_failure_is_fatal_witness :
    ∃ e2, offsets providerEngineFails = Except.error e2 ∧
      ∀ t, offsets providerEngineFails ≠ Except.ok t :=
  (C4_provider_failure_is_fatal providerEngineFails).1
    ⟨"engine2.dll", by decide, ProviderError.readFailure "engine2.dll", by decide⟩

/-- Claim C5: whenever the top-level aggregation succeeds, the returned
table has an Offset Map entry for every configured target module. -/
theorem C5_table_has_every_module (provider : String → Except ProviderError (List Byte))
    (t : List (String × List (String × Nat))) (ht : offsets provider = Except.ok t)
    (m : String) (hm : m ∈ targetModuleNames) : ∃ om, lookupBT t m = some om := by
  obtain ⟨p, hp, hpm⟩ := List.mem_map.mp hm
  have hsome := aggregateFrom_mem_lookup provider targetModules [] t p ht hp
  rw [hpm] at hsome
  exact ⟨(lookupBT t m).get hsome, (Option.some_get hsome).symm⟩

/-- Witness for C5 on a provider producing empty buffers for all modules:
the returned table has all three configured modules. -/
theorem C5_table_has_every_module_witness :
    ∃ om, lookupBT [("client.dll", ([] : List (String × Nat))),
      ("engine2.dll", []), ("inputsystem.dll", [])] "inputsystem.dll" = some om :=
  C5_table_has_every_module providerAllEmpty
    [("client.dll", []), ("engine2.dll", []), ("inputsystem.dll", [])]
    (by decide) "inputsystem.dll" (by decide)

/-- Claim C6: during one build pass over a registry with unique names and
no derivation callbacks — as in the whole current registry — the per-module
map grows monotonically: a binding present after processing a prefix of the
registry is still present, with the same value, after the remaining
entries are processed. -/
theorem C6_map_monotone (l1 l2 : List RegEntry) (img : List Byte) (k : String) (v : Nat)
    (hcb : allNone (l1 ++ l2) = true) (hnd : (namesOf (l1 ++ l2)).Nodup)
    (hv : lookupBT (buildMap l1 img) k = some v) :
    lookupBT (buildMap (l1 ++ l2) img) k = some v := by
  have hcb2 := (allNone_iff (l1 ++ l2)).mp hcb
  have hcb1 : ∀ e ∈ l1, e.callback = none := fun e h => hcb2 e (by simp [h])
  have hcbr : ∀ e ∈ l2, e.callback = none := fun e h => hcb2 e (by simp [h])
  have hk1 : k ∈ keysBT (buildMap l1 img) := lookupBT_some_mem_keys _ k v hv
  have hk2 : k ∈ namesOf l1 := by
    rcases fold_keys_subset img l1 [] k hcb1 hk1 with h | h
    · simp [keysBT] at h
    · exact h
  have hnames : namesOf (l1 ++ l2) = namesOf l1 ++ namesOf l2 := by simp [namesOf]
  rw [hnames] at hnd
  have hnot2 : k ∉ namesOf l2 := fun hk3 =>
    (List.nodup_append.mp hnd).2.2 hk2 hk3
  unfold buildMap
  rw [List.foldl_append, fold_lookup_of_not_mem img l2 _ k hcbr hnot2]
  exact hv

/-- Witness for C6: the `dwLocalPlayerController` binding built from the
first registry entry survives the processing of a later entry whose
pattern fails on the image. -/
theorem C6_map_monotone_witness :
    lookupBT (buildMap ([entryLocalPlayerController] ++ [entryEntityList]) imgLPC)
      "dwLocalPlayerController" = some 7 :=
  C6_map_monotone [entryLocalPlayerController] [entryEntityList] imgLPC
    "dwLocalPlayerController" 7 (by decide) (by decide) (by decide)

/-- Claim C7: the scan is deterministic: a result of the scanner is exactly
the first matching window — the scanner returns a match if and only if it
is the first match, and the first match of a fixed image and pattern is
unique, so repeated invocations on the same image necessarily return the
identical offset and captures (and with it, identical Offset Maps). -/
theorem C7_deterministic_first_match (pat : List Atom) (img : List Byte) :
    (∀ p cs, findMatch pat img = some (p, cs) → IsFirstMatch pat img p cs) ∧
      (∀ p cs, IsFirstMatch pat img p cs → findMatch pat img = some (p, cs)) ∧
      (∀ p1 cs1 p2 cs2, IsFirstMatch pat img p1 cs1 → IsFirstMatch pat img p2 cs2 →
        p1 = p2 ∧ cs1 = cs2) := by
  exact ⟨fun p cs h => findMatch_some_first pat img p cs h,
    fun p cs h => findMatch_of_isFirst pat img p cs h,
    fun p1 cs1 p2 cs2 h1 h2 => isFirstMatch_unique pat img p1 p2 cs1 cs2 h1 h2⟩

/-- Witness for C7: on a concrete image the `dwLocalPlayerController`
signature's scan result is certified as the unique first match. -/
theorem C7_deterministic_first_match_witness :
    IsFirstMatch entryLocalPlayerController.pat imgLPC 0 [7] :=
  (C7_deterministic_first_match entryLocalPlayerController.pat imgLPC).1 0 [7] (by decide)

/-- Claim C8: every scan terminates within the image's fixed byte length:
giving the scan loop any fuel beyond the image length changes nothing, a
returned match lies within the image, and the builder attempts each of the
finitely many registry entries once, emitting at most one staleness
diagnostic per entry. -/
theorem C8_scan_terminates (pat : List Atom) (img : List Byte) (fuel : Nat)
    (hfuel : img.length + 1 ≤ fuel) :
    scanFuel pat img fuel 0 = findMatch pat img ∧
      (∀ p cs, findMatch pat img = some (p, cs) → p + patLen pat ≤ img.length) ∧
      ∀ entries : List RegEntry, (staleDiags entries img).length ≤ entries.length := by
  refine ⟨?_, ?_, ?_⟩
  · have hd : fuel = (img.length + 1) + (fuel - (img.length + 1)) := by omega
    rw [hd, scanFuel_ge_stable pat img (fuel - (img.length + 1)) (img.length + 1) 0 (by omega)]
    rfl
  · intro p cs h
    exact (scanFuel_some_spec pat img (img.length + 1) 0 p cs h).2.1
  · intro entries
    unfold staleDiags
    rw [List.length_map]
    exact List.length_filter_le _ entries

/-- Witness for C8: on the empty image with surplus fuel the scan of the
`dwEntityList` signature stops with the same (empty) result. -/
theorem C8_scan_terminates_witness :
    scanFuel entryEntityList.pat [] 5 0 = findMatch entryEntityList.pat [] ∧
      (∀ p cs, findMatch entryEntityList.pat [] = some (p, cs) →
        p + patLen entryEntityList.pat ≤ ([] : List Byte).length) ∧
      ∀ entries : List RegEntry, (staleDiags entries []).length ≤ entries.length :=
  C8_scan_terminates entryEntityList.pat [] 5 (by decide)

/-- Claim C9: every pattern of the static registry contains a capture atom,
so its save length is at least 2, and on a successful scan the save array
has exactly that length, making the unguarded `save[1]` access in the
builder in bounds. -/
theorem C9_save_slot_one_in_bounds (e : RegEntry)
    (he : e ∈ client.PATTERNS ++ engine2.PATTERNS ++ input_system.PATTERNS)
    (img : List Byte) (save : List Nat) (hs : finds_code e.pat img = some save) :
    2 ≤ save_len e.pat ∧ save.length = save_len e.pat ∧ 1 < save.length := by
  have hall : ((client.PATTERNS ++ engine2.PATTERNS ++ input_system.PATTERNS).all
      fun e2 => decide (1 ≤ captureCount e2.pat)) = true := by decide
  have hcap : 1 ≤ captureCount e.pat :=
    of_decide_eq_true (List.all_eq_true.mp hall e he)
  have hlen : save.length = save_len e.pat := by
    unfold finds_code at hs
    cases hfm : findMatch e.pat img with
    | none => rw [hfm] at hs; exact Option.noConfusion hs
    | some pc =>
        obtain ⟨pos, cs⟩ := pc
        rw [hfm] at hs
        have hsv : save = pos :: cs := (Option.some.inj hs).symm
        have hm := (scanFuel_some_spec e.pat img (img.length + 1) 0 pos cs hfm).2.2.1
        have := matchAtoms_length hm
        simp [hsv, save_len, this]
        omega
  refine ⟨by simp [save_len]; omega, hlen, by rw [hlen]; simp [save_len]; omega⟩

/-- Witness for C9 at the registered `dwEntityList` entry and a matching
image: the save array [0, 7] has length 2 = save length of the pattern. -/
theorem C9_save_slot_one_in_bounds_witness :
    2 ≤ save_len entryEntityList.pat ∧
      ([0, 7] : List Nat).length = save_len entryEntityList.pat ∧
      1 < ([0, 7] : List Nat).length :=
  C9_save_slot_one_in_bounds entryEntityList (List.Mem.head _) imgEL [0, 7] (by decide)

/-- Claim C10: every derivation callback in the current static registry is
`None`, and for every image the keys of each per-module map are a subset
of that module's registered names — at most 10 entries for client.dll, 11
for engine2.dll and 1 for inputsystem.dll; no name outside the registry
ever appears. -/
theorem C10_keys_subset_registry (img : List Byte) (k : String) :
    allNone client.PATTERNS = true ∧ allNone engine2.PATTERNS = true ∧
      allNone input_system.PATTERNS = true ∧
      (k ∈ keysBT (client.offsets img) → k ∈ namesOf client.PATTERNS) ∧
      (client.offsets img).length ≤ 10 ∧
      (k ∈ keysBT (engine2.offsets img) → k ∈ namesOf engine2.PATTERNS) ∧
      (engine2.offsets img).length ≤ 11 ∧
      (k ∈ keysBT (input_system.offsets img) → k ∈ namesOf input_system.PATTERNS) ∧
      (input_system.offsets img).length ≤ 1 := by
  have hc : allNone client.PATTERNS = true := by decide
  have he : allNone engine2.PATTERNS = true := by decide
  have hi : allNone input_system.PATTERNS = true := by decide
  refine ⟨hc, he, hi, ?_, ?_, ?_, ?_, ?_, ?_⟩
  · intro hk
    rcases fold_keys_subset img client.PATTERNS [] k ((allNone_iff _).mp hc) hk with h | h
    · simp [keysBT] at h
    · exact h
  · have := fold_length_le img client.PATTERNS [] ((allNone_iff _).mp hc)
    have hlen : client.PATTERNS.length = 10 := by decide
    simpa [client.offsets, buildMap, hlen] using this
  · intro hk
    rcases fold_keys_subset img engine2.PATTERNS [] k ((allNone_iff _).mp he) hk with h | h
    · simp [keysBT] at h
    · exact h
  · have := fold_length_le img engine2.PATTERNS [] ((allNone_iff _).mp he)
    have hlen : engine2.PATTERNS.length = 11 := by decide
    simpa [engine2.offsets, buildMap, hlen] using this
  · intro hk
    rcases fold_keys_subset img input_system.PATTERNS [] k ((allNone_iff _).mp hi) hk with h | h
    · simp [keysBT] at h
    · exact h
  · have := fold_length_le img input_system.PATTERNS [] ((allNone_iff _).mp hi)
    have hlen : input_system.PATTERNS.length = 1 := by decide
    simpa [input_system.offsets, buildMap, hlen] using this

/-- Witness for C10: on a concrete image the key the builder produced for
client.dll is one of the registered names. -/
theorem C10_keys_subset_registry_witness :
    "dwLocalPlayerController" ∈ namesOf client.PATTERNS :=
  (C10_keys_subset_registry imgLPC "dwLocalPlayerController").2.2.2.1 (by decide)

end DeadLockDumper
